import Mathlib

/-!
Verification of the migration pipeline of `indico-migrate`.

This file gives a shallow embedding, in Lean, of the parts of the code that the
specification talks about: the Python dict/set containers become association
lists, classes become structures, exceptions become `Except`, and implicit
mutation becomes explicit state passing.  Every definition is translated from
the corresponding Python source (file and function named in its doc comment).
-/

/-! ## Association-list model of Python dicts

Python dicts keep at most one binding per key; we model them as association
lists and always access them through `dictGet`/`dictSet`/`dictDel`, which act
on the first binding of a key (so they agree with dict behaviour whenever the
keys are distinct, and theorems that need global uniqueness take a `Nodup`
hypothesis on the keys). -/

def dictGet {κ α : Type} [DecidableEq κ] : List (κ × α) → κ → Option α
  | [], _ => none
  | (k, v) :: rest, k' => if k = k' then some v else dictGet rest k'

def dictSet {κ α : Type} [DecidableEq κ] : List (κ × α) → κ → α → List (κ × α)
  | [], k, v => [(k, v)]
  | (k0, v0) :: rest, k, v =>
    if k0 = k then (k, v) :: rest else (k0, v0) :: dictSet rest k v

def dictDel {κ α : Type} [DecidableEq κ] : List (κ × α) → κ → List (κ × α)
  | [], _ => []
  | (k0, v0) :: rest, k => if k0 = k then rest else (k0, v0) :: dictDel rest k

def dictKeys {κ α : Type} (m : List (κ × α)) : List κ := m.map Prod.fst

theorem dictGet_dictSet_self {κ α : Type} [DecidableEq κ] (m : List (κ × α)) (k : κ) (v : α) :
    dictGet (dictSet m k v) k = some v := by
  induction m with
  | nil => simp [dictGet, dictSet]
  | cons hd tl ih =>
    obtain ⟨k0, v0⟩ := hd
    by_cases h : k0 = k <;> simp [dictGet, dictSet, h, ih]

theorem dictGet_dictSet_ne {κ α : Type} [DecidableEq κ] (m : List (κ × α)) (k k' : κ) (v : α)
    (h : k ≠ k') : dictGet (dictSet m k v) k' = dictGet m k' := by
  induction m with
  | nil => simp [dictGet, dictSet, h]
  | cons hd tl ih =>
    obtain ⟨k0, v0⟩ := hd
    by_cases h0 : k0 = k
    · subst h0
      simp [dictGet, dictSet, h]
    · simp only [dictSet, if_neg h0]
      by_cases h1 : k0 = k' <;> simp [dictGet, h1, ih]

theorem dictSet_self_of_mem {κ α : Type} [DecidableEq κ] (m : List (κ × α)) (k : κ) (v : α)
    (hmem : (k, v) ∈ m) (hnd : (dictKeys m).Nodup) : dictSet m k v = m := by
  induction m with
  | nil => cases hmem
  | cons hd tl ih =>
    obtain ⟨k0, v0⟩ := hd
    simp only [dictKeys, List.map_cons, List.nodup_cons] at hnd
    rcases List.mem_cons.mp hmem with heq | htl
    · injection heq with hk hv
      subst hk
      subst hv
      simp [dictSet]
    · have hk0 : k0 ≠ k := by
        intro h
        subst h
        exact hnd.1 (List.mem_map.mpr ⟨(k0, v), htl, rfl⟩)
      simp [dictSet, hk0, ih htl hnd.2]

/-! ## SharedNamespace (`indico_migrate/namespaces.py`)

`SharedNamespace` holds a dict `_stores` of named mutable containers, created
from the `store_types` declaration.  `serialize()` returns a shallow copy of
`_stores` (a dict comprehension over its items) and `load(data)` merges a
serialized structure back with `self._stores.update(data)`.  Container
contents are modelled by `StoreVal`; `RefVal` covers plain values plus the two
custom reference encodings used by the restore-file format (a destination
entity encoded as class name + primary key, and a legacy-graph object encoded
as its ZODB oid). -/

inductive RefVal : Type
  | sqlref (cls : String) (oid : Option Int)
  | zodbref (oid : String)
  | strval (s : String)
  | intval (n : Int)
deriving DecidableEq, Repr

inductive StoreVal : Type
  | dict (entries : List (RefVal × RefVal))
  | setv (elems : List RefVal)
  | setdict (entries : List (RefVal × List RefVal))
deriving DecidableEq, Repr

structure SharedNamespace : Type where
  name : String
  stores : List (String × StoreVal)
deriving DecidableEq, Repr

def SharedNamespace.serialize (ns : SharedNamespace) : List (String × StoreVal) :=
  ns.stores

def SharedNamespace.load (ns : SharedNamespace) (data : List (String × StoreVal)) :
    SharedNamespace :=
  { ns with stores := data.foldl (fun acc kv => dictSet acc kv.1 kv.2) ns.stores }

theorem foldl_dictSet_id {κ α : Type} [DecidableEq κ] (m : List (κ × α))
    (data : List (κ × α)) (h : ∀ kv ∈ data, dictSet m kv.1 kv.2 = m) :
    data.foldl (fun acc kv => dictSet acc kv.1 kv.2) m = m := by
  induction data with
  | nil => rfl
  | cons hd tl ih =>
    have hhd : dictSet m hd.1 hd.2 = m := h hd (List.mem_cons_self _ _)
    simp only [List.foldl_cons, hhd]
    exact ih fun kv hkv => h kv (List.mem_cons_of_mem _ hkv)

/-- Claim C4: for every `SharedNamespace` (any declaration of container types,
any accumulated contents), `ns.load (ns.serialize)` leaves the namespace with
containers element-wise equal to the original: serialize followed by load is
the identity on the namespace (given the dict invariant that store keys are
unique). -/
theorem sharedNamespace_load_serialize_id (ns : SharedNamespace)
    (hnd : (dictKeys ns.stores).Nodup) : ns.load ns.serialize = ns := by
  have h : ∀ kv ∈ ns.stores, dictSet ns.stores kv.1 kv.2 = ns.stores := by
    intro kv hkv
    exact dictSet_self_of_mem ns.stores kv.1 kv.2 hkv hnd
  unfold SharedNamespace.load SharedNamespace.serialize
  rw [foldl_dictSet_id ns.stores ns.stores h]

/-- Witness for C4 on a concrete namespace with populated containers,
including both custom reference encodings. -/
theorem sharedNamespace_load_serialize_id_witness :
    (dictKeys (SharedNamespace.mk "global_ns"
      [("avatar_merged_user", StoreVal.dict [(RefVal.strval "12", RefVal.sqlref "User" (some 3))]),
       ("wf_registry", StoreVal.dict [(RefVal.strval "x", RefVal.zodbref "oid7")]),
       ("user_favorite_categories", StoreVal.setdict [(RefVal.intval 1, [RefVal.sqlref "Category" (some 2)])])]).stores).Nodup ∧
    (SharedNamespace.mk "global_ns"
      [("avatar_merged_user", StoreVal.dict [(RefVal.strval "12", RefVal.sqlref "User" (some 3))]),
       ("wf_registry", StoreVal.dict [(RefVal.strval "x", RefVal.zodbref "oid7")]),
       ("user_favorite_categories", StoreVal.setdict [(RefVal.intval 1, [RefVal.sqlref "Category" (some 2)])])]).load
      (SharedNamespace.mk "global_ns"
      [("avatar_merged_user", StoreVal.dict [(RefVal.strval "12", RefVal.sqlref "User" (some 3))]),
       ("wf_registry", StoreVal.dict [(RefVal.strval "x", RefVal.zodbref "oid7")]),
       ("user_favorite_categories", StoreVal.setdict [(RefVal.intval 1, [RefVal.sqlref "Category" (some 2)])])]).serialize =
    SharedNamespace.mk "global_ns"
      [("avatar_merged_user", StoreVal.dict [(RefVal.strval "12", RefVal.sqlref "User" (some 3))]),
       ("wf_registry", StoreVal.dict [(RefVal.strval "x", RefVal.zodbref "oid7")]),
       ("user_favorite_categories", StoreVal.setdict [(RefVal.intval 1, [RefVal.sqlref "Category" (some 2)])])] :=
  ⟨by decide, sharedNamespace_load_serialize_id _ (by decide)⟩

/-! ## Migration State Manager (`indico_migrate/util.py`, `MigrationStateManager`)

The state manager holds the completed-step list `_steps` and the registered
namespaces `_namespaces`.  `register_step` appends the step class name,
`has_already_run` is a membership test, and `load_restore_point` installs the
completed list from `data['steps']` and calls `ns.load(data['namespaces'][name])`
for every registered namespace; in Python a missing key raises `KeyError`,
which we model with `Except`. -/

inductive PyError : Type
  | keyError (key : String)
  | assertionError
  | valueError (msg : String)
  | skipEvent
deriving DecidableEq, Repr

/-- A top-level step: its class name (the identity recorded by the state
manager) and whether it is one of the two room-booking steps
(`RoomsLocationsImporter`, `RoomBookingsImporter`), which the driver loop in
`migrate.py` treats specially. -/
structure StepDef : Type where
  name : String
  needsRb : Bool
deriving DecidableEq, Repr

structure MigState : Type where
  steps : List String
  namespaces : List (String × SharedNamespace)
deriving DecidableEq, Repr

def registerStep (st : MigState) (s : StepDef) : MigState :=
  { st with steps := st.steps ++ [s.name] }

def hasAlreadyRun (st : MigState) (s : StepDef) : Bool :=
  st.steps.contains s.name

def registerNs (st : MigState) (ns : SharedNamespace) : MigState :=
  { st with namespaces := dictSet st.namespaces ns.name ns }

/-- The restore file parsed by `yaml.load`: a mapping that, when well formed,
has a `steps` key (list of completed step names) and a `namespaces` key
(serialized namespace per name).  A missing key is `none`. -/
structure RestoreData : Type where
  steps : Option (List String)
  namespaces : Option (List (String × List (String × StoreVal)))
deriving DecidableEq, Repr

/-- The loop body of `load_restore_point`: `ns.load(data['namespaces'][name])`
for every registered namespace, failing with `KeyError` on the first
registered name that has no entry. -/
def loadNamespaces (nsData : List (String × List (String × StoreVal))) :
    List (String × SharedNamespace) →
    Except PyError (List (String × SharedNamespace))
  | [] => .ok []
  | (nm, ns) :: rest =>
    match dictGet nsData nm with
    | none => .error (.keyError nm)
    | some d =>
      match loadNamespaces nsData rest with
      | .error e => .error e
      | .ok rest2 => .ok ((nm, ns.load d) :: rest2)

/-- `MigrationStateManager.load_restore_point` (util.py lines 310-314):
`cls._steps = data['steps']`, then for every registered namespace
`ns.load(data['namespaces'][name])`.  Accessing `data['namespaces']` only
happens inside the loop, so when no namespace is registered a missing
`namespaces` key goes unnoticed. -/
def loadRestorePoint (st : MigState) (data : RestoreData) : Except PyError MigState :=
  match data.steps with
  | none => .error (.keyError "steps")
  | some newSteps =>
    match data.namespaces with
    | none =>
      match st.namespaces with
      | [] => .ok { steps := newSteps, namespaces := [] }
      | _ :: _ => .error (.keyError "namespaces")
    | some nsData =>
      match loadNamespaces nsData st.namespaces with
      | .error e => .error e
      | .ok loaded => .ok { steps := newSteps, namespaces := loaded }

/-! ## Pipeline driver (`indico_migrate/migrate.py`, `migrate`)

The driver iterates the fixed step list; a step whose name is already in the
completed list is skipped, otherwise the step is constructed and `run()`
invoked — except that the two room-booking steps are only constructed and run
when a room-booking ZODB URI was given (yet `register_step` still runs for
them).  An exception from `run()` aborts the whole loop and `register_step`
is not reached.  `runOk` is the oracle saying whether a step's `run()`
returns without raising; the result is the final manager state, the list of
steps whose `run()` was invoked, and whether the loop completed. -/

def runSteps (runOk : StepDef → Bool) (rbUri : Bool) :
    MigState → List StepDef → MigState × List StepDef × Bool
  | st, [] => (st, [], true)
  | st, s :: rest =>
    if hasAlreadyRun st s then
      runSteps runOk rbUri st rest
    else if s.needsRb && !rbUri then
      runSteps runOk rbUri (registerStep st s) rest
    else if runOk s then
      let r := runSteps runOk rbUri (registerStep st s) rest
      (r.1, s :: r.2.1, r.2.2)
    else
      (st, [s], false)

/-- The driver entry point (migrate.py lines 80-107): when a restore file is
given, `load_restore_point` runs before the step loop; a failure there
propagates and no step is ever constructed or run. -/
def migrateTop (runOk : StepDef → Bool) (rbUri : Bool) (steps : List StepDef)
    (restore : Option RestoreData) (st0 : MigState) :
    MigState × List StepDef × Bool :=
  match restore with
  | none => runSteps runOk rbUri st0 steps
  | some data =>
    match loadRestorePoint st0 data with
    | .error _ => (st0, [], false)
    | .ok st1 => runSteps runOk rbUri st1 steps

theorem runSteps_steps_mono (runOk : StepDef → Bool) (rbUri : Bool)
    (steps : List StepDef) (st : MigState) (n : String) (h : n ∈ st.steps) :
    n ∈ (runSteps runOk rbUri st steps).1.steps := by
  induction steps generalizing st with
  | nil => exact h
  | cons s rest ih =>
    have hreg : n ∈ (registerStep st s).steps := by
      simp only [registerStep, List.mem_append]
      exact Or.inl h
    by_cases h1 : hasAlreadyRun st s
    · simpa [runSteps, h1] using ih st h
    · by_cases h2 : s.needsRb && !rbUri
      · simpa [runSteps, h1, h2] using ih (registerStep st s) hreg
      · by_cases h3 : runOk s
        · simpa [runSteps, h1, h2, h3] using ih (registerStep st s) hreg
        · simpa [runSteps, h1, h2, h3] using h

theorem runSteps_not_invoked_of_completed (runOk : StepDef → Bool) (rbUri : Bool)
    (steps : List StepDef) (st : MigState) (nm : String) (h : nm ∈ st.steps) :
    ∀ t ∈ (runSteps runOk rbUri st steps).2.1, t.name ≠ nm := by
  induction steps generalizing st with
  | nil => simp [runSteps]
  | cons s rest ih =>
    intro t ht
    by_cases h1 : hasAlreadyRun st s
    · exact ih st h t (by simpa [runSteps, h1] using ht)
    · have hreg : nm ∈ (registerStep st s).steps := by
        simp only [registerStep, List.mem_append]
        exact Or.inl h
      by_cases h2 : s.needsRb && !rbUri
      · exact ih (registerStep st s) hreg t (by simpa [runSteps, h1, h2] using ht)
      · by_cases h3 : runOk s
        · simp only [runSteps, if_neg h1, if_pos h2, if_neg h2, if_pos h3] at ht
          rcases List.mem_cons.mp ht with hts | htr
          · subst hts
            intro hcontra
            exact h1 (by simp [hasAlreadyRun, hcontra, h])
          · exact ih (registerStep st s) hreg t htr
        · simp only [runSteps, if_neg h1, if_neg h3, if_pos h2, if_neg h2] at ht
          rcases List.mem_cons.mp ht with hts | htr
          · subst hts
            intro hcontra
            exact h1 (by simp [hasAlreadyRun, hcontra, h])
          · cases htr

theorem loadRestorePoint_ok_steps (st st1 : MigState) (data : RestoreData)
    (h : loadRestorePoint st data = .ok st1) : data.steps = some st1.steps := by
  unfold loadRestorePoint at h
  cases hs : data.steps with
  | none => simp [hs] at h
  | some l =>
    cases hn : data.namespaces with
    | none =>
      cases hns : st.namespaces with
      | nil =>
        simp only [hs, hn, hns, Except.ok.injEq] at h
        rw [← h]
      | cons a tl => simp [hs, hn, hns] at h
    | some nsData =>
      cases hl : loadNamespaces nsData st.namespaces with
      | error e => simp [hs, hn, hl] at h
      | ok loaded =>
        simp only [hs, hn, hl, Except.ok.injEq] at h
        rw [← h]

/-- Claim C1: for every top-level step S, if the pipeline is resumed from a
restore point whose completed-step list contains S's name, the driver never
invokes S's `run()`/`migrate()` again — the step loop tests membership in the
completed list before constructing and running each step and skips on a hit. -/
theorem resumed_completed_step_not_invoked
    (runOk : StepDef → Bool) (rbUri : Bool) (steps : List StepDef)
    (data : RestoreData) (st0 : MigState) (s : StepDef) (l : List String)
    (hsteps : data.steps = some l) (hmem : s.name ∈ l) :
    ∀ t ∈ (migrateTop runOk rbUri steps (some data) st0).2.1, t.name ≠ s.name := by
  simp only [migrateTop]
  cases hload : loadRestorePoint st0 data with
  | error e => simp
  | ok st1 =>
    simp only []
    have hst1 : st1.steps = l := by
      have := loadRestorePoint_ok_steps st0 st1 data hload
      rw [hsteps] at this
      exact (Option.some.injEq .. ▸ this).symm
    exact runSteps_not_invoked_of_completed runOk rbUri steps st1 s.name (hst1 ▸ hmem)

/-- Witness for C1: concrete resumed run in which `UserImporter` is listed as
completed; the only invoked step is the other one. -/
theorem resumed_completed_step_not_invoked_witness :
    (some ["UserImporter"] = some ["UserImporter"] ∧
      "UserImporter" ∈ ["UserImporter"] ∧
      StepDef.mk "GlobalPreEventsImporter" false ∈
        (migrateTop (fun _ => true) true
          [⟨"GlobalPreEventsImporter", false⟩, ⟨"UserImporter", false⟩]
          (some ⟨some ["UserImporter"], some []⟩) ⟨[], []⟩).2.1) ∧
    (StepDef.mk "GlobalPreEventsImporter" false).name ≠ (StepDef.mk "UserImporter" false).name :=
  ⟨⟨rfl, by decide, by decide⟩,
    resumed_completed_step_not_invoked (fun _ => true) true
      [⟨"GlobalPreEventsImporter", false⟩, ⟨"UserImporter", false⟩]
      ⟨some ["UserImporter"], some []⟩ ⟨[], []⟩ ⟨"UserImporter", false⟩ ["UserImporter"]
      rfl (by decide) ⟨"GlobalPreEventsImporter", false⟩ (by decide)⟩

def regNames (st : MigState) : List String := dictKeys st.namespaces

theorem loadNamespaces_error_of_missing (nsData : List (String × List (String × StoreVal)))
    (nss : List (String × SharedNamespace)) (nm : String)
    (hmem : nm ∈ dictKeys nss) (hmiss : dictGet nsData nm = none) :
    ∃ e, loadNamespaces nsData nss = .error e := by
  induction nss with
  | nil => cases hmem
  | cons hd tl ih =>
    obtain ⟨nm0, ns0⟩ := hd
    cases hget : dictGet nsData nm0 with
    | none => exact ⟨.keyError nm0, by simp [loadNamespaces, hget]⟩
    | some d =>
      have hne : nm ≠ nm0 := by
        intro h
        subst h
        rw [hget] at hmiss
        cases hmiss
      have hmem2 : nm ∈ dictKeys tl := by
        rcases List.mem_cons.mp hmem with h | h
        · exact absurd h hne
        · exact h
      obtain ⟨e, he⟩ := ih hmem2
      exact ⟨e, by simp [loadNamespaces, hget, he]⟩

theorem loadRestorePoint_error_of_malformed (st0 : MigState) (data : RestoreData)
    (hreg : "global_ns" ∈ regNames st0)
    (hbad : data.steps = none ∨ data.namespaces = none ∨
      ∃ nm ∈ regNames st0, data.namespaces.bind (fun nsData => dictGet nsData nm) = none) :
    ∃ e, loadRestorePoint st0 data = .error e := by
  cases hs : data.steps with
  | none => exact ⟨.keyError "steps", by simp [loadRestorePoint, hs]⟩
  | some l =>
    have hnonempty : st0.namespaces ≠ [] := by
      intro h
      rw [regNames, dictKeys, h] at hreg
      cases hreg
    cases hn : data.namespaces with
    | none =>
      cases hns : st0.namespaces with
      | nil => exact absurd hns hnonempty
      | cons a tl => exact ⟨.keyError "namespaces", by simp [loadRestorePoint, hs, hn, hns]⟩
    | some nsData =>
      rcases hbad with h | h | ⟨nm, hnm, hmiss⟩
      · rw [hs] at h; cases h
      · rw [hn] at h; cases h
      · rw [hn] at hmiss
        simp only [Option.some_bind] at hmiss
        obtain ⟨e, he⟩ := loadNamespaces_error_of_missing nsData st0.namespaces nm hnm hmiss
        exact ⟨e, by simp [loadRestorePoint, hs, hn, he]⟩

/-- Claim C2: a restore file whose data lacks the entry for some registered
namespace, or lacks the `steps`/`namespaces` keys, makes the resumed run abort
before the step loop executes any step: `load_restore_point` runs before the
first step is constructed and the missing key aborts the run.  (`cli.py`
registers the namespace `global_ns` before calling `migrate`, which is the
`hreg` hypothesis; with no registered namespace at all, a missing `namespaces`
key would actually go unnoticed because `data['namespaces']` is only accessed
inside the per-namespace loop.) -/
theorem malformed_restore_aborts_before_steps
    (runOk : StepDef → Bool) (rbUri : Bool) (steps : List StepDef)
    (data : RestoreData) (st0 : MigState)
    (hreg : "global_ns" ∈ regNames st0)
    (hbad : data.steps = none ∨ data.namespaces = none ∨
      ∃ nm ∈ regNames st0, data.namespaces.bind (fun nsData => dictGet nsData nm) = none) :
    migrateTop runOk rbUri steps (some data) st0 = (st0, [], false) := by
  obtain ⟨e, he⟩ := loadRestorePoint_error_of_malformed st0 data hreg hbad
  simp only [migrateTop, he]

/-- Witness for C2: restore data with a `namespaces` mapping that lacks the
registered `global_ns` entry aborts with no step invoked. -/
theorem malformed_restore_aborts_before_steps_witness :
    ("global_ns" ∈ regNames ⟨[], [("global_ns", ⟨"global_ns", []⟩)]⟩ ∧
      ((some [] : Option (List String)) = none ∨
        (some [] : Option (List (String × List (String × StoreVal)))) = none ∨
        ∃ nm ∈ regNames ⟨[], [("global_ns", ⟨"global_ns", []⟩)]⟩,
          (some ([] : List (String × List (String × StoreVal)))).bind
            (fun nsData => dictGet nsData nm) = none)) ∧
    migrateTop (fun _ => true) true [⟨"UserImporter", false⟩]
      (some ⟨some [], some []⟩) ⟨[], [("global_ns", ⟨"global_ns", []⟩)]⟩ =
      (⟨[], [("global_ns", ⟨"global_ns", []⟩)]⟩, [], false) :=
  ⟨⟨by decide, by decide⟩,
    malformed_restore_aborts_before_steps (fun _ => true) true [⟨"UserImporter", false⟩]
      ⟨some [], some []⟩ ⟨[], [("global_ns", ⟨"global_ns", []⟩)]⟩ (by decide) (by decide)⟩

/-- Counterexample to claim C3 as stated: the driver loop in `migrate.py`
calls `register_step` at the end of every non-skipped iteration, but for the
two room-booking steps the construction and `run()` happen only when a
room-booking ZODB URI was given.  Starting from an empty completed list with
no room-booking URI, `RoomsLocationsImporter` ends up in the completed-step
list even though no step was ever invoked, refuting "a step identity appears
in the completed list only if that step's run() was invoked and returned
without raising". -/
theorem step_registered_without_run_counterexample :
    ¬ (∀ nm ∈ (runSteps (fun _ => true) false ⟨[], []⟩
          [⟨"RoomsLocationsImporter", true⟩]).1.steps,
        nm ∈ (⟨[], []⟩ : MigState).steps ∨
        ∃ t ∈ (runSteps (fun _ => true) false ⟨[], []⟩
            [⟨"RoomsLocationsImporter", true⟩]).2.1,
          (fun _ => true) t = true ∧ t.name = nm) := by
  decide

/-- Claim C3, amended: a step name appears in the completed list only if it
was there at the start of the loop (restored from a prior run), or the step
was invoked in this run with `run()` returning without raising, or the step
is one of the room-booking steps and no room-booking database URI was given
(in which case the driver registers it without constructing or running it). -/
theorem completed_implies_invoked_or_restored_or_rbless
    (runOk : StepDef → Bool) (rbUri : Bool) (steps : List StepDef) (st0 : MigState) :
    ∀ nm ∈ (runSteps runOk rbUri st0 steps).1.steps,
      nm ∈ st0.steps ∨
      (∃ t ∈ (runSteps runOk rbUri st0 steps).2.1, runOk t = true ∧ t.name = nm) ∨
      (∃ t ∈ steps, t.needsRb = true ∧ rbUri = false ∧ t.name = nm) := by
  induction steps generalizing st0 with
  | nil =>
    intro nm hnm
    exact Or.inl hnm
  | cons s rest ih =>
    intro nm hnm
    by_cases h1 : hasAlreadyRun st0 s
    · rcases ih st0 nm (by simpa [runSteps, h1] using hnm) with h | ⟨t, ht, hok, heq⟩ | ⟨t, ht, hrb, hu, heq⟩
      · exact Or.inl h
      · exact Or.inr (Or.inl ⟨t, by simpa [runSteps, h1] using ht, hok, heq⟩)
      · exact Or.inr (Or.inr ⟨t, List.mem_cons_of_mem _ ht, hrb, hu, heq⟩)
    · by_cases h2 : s.needsRb && !rbUri
      · rcases ih (registerStep st0 s) nm (by simpa [runSteps, h1, h2] using hnm) with h | ⟨t, ht, hok, heq⟩ | ⟨t, ht, hrb, hu, heq⟩
        · rcases (by simpa [registerStep] using h : nm ∈ st0.steps ∨ nm = s.name) with h0 | hs
          · exact Or.inl h0
          · have hparts := Bool.and_eq_true_iff.mp h2
            exact Or.inr (Or.inr ⟨s, List.mem_cons_self _ _, hparts.1,
              by simpa using hparts.2, hs.symm⟩)
        · exact Or.inr (Or.inl ⟨t, by simpa [runSteps, h1, h2] using ht, hok, heq⟩)
        · exact Or.inr (Or.inr ⟨t, List.mem_cons_of_mem _ ht, hrb, hu, heq⟩)
      · by_cases h3 : runOk s
        · rcases ih (registerStep st0 s) nm (by simpa [runSteps, h1, h2, h3] using hnm) with h | ⟨t, ht, hok, heq⟩ | ⟨t, ht, hrb, hu, heq⟩
          · rcases (by simpa [registerStep] using h : nm ∈ st0.steps ∨ nm = s.name) with h0 | hs
            · exact Or.inl h0
            · refine Or.inr (Or.inl ⟨s, ?_, h3, hs.symm⟩)
              simp [runSteps, h1, h2, h3]
          · refine Or.inr (Or.inl ⟨t, ?_, hok, heq⟩)
            simp only [runSteps, if_neg h1, if_neg h2, if_pos h3]
            exact List.mem_cons_of_mem _ ht
          · exact Or.inr (Or.inr ⟨t, List.mem_cons_of_mem _ ht, hrb, hu, heq⟩)
        · exact Or.inl (by simpa [runSteps, h1, h2, h3] using hnm)

/-- Witness for the amended C3 at a concrete run: the completed name of a
normally-run step is accounted for by its successful invocation. -/
theorem completed_implies_invoked_witness :
    "UserImporter" ∈ (runSteps (fun _ => true) false ⟨[], []⟩
        [⟨"UserImporter", false⟩]).1.steps ∧
    ("UserImporter" ∈ (⟨[], []⟩ : MigState).steps ∨
      (∃ t ∈ (runSteps (fun _ => true) false ⟨[], []⟩
          [⟨"UserImporter", false⟩]).2.1, (fun _ => true) t = true ∧ t.name = "UserImporter") ∨
      (∃ t ∈ [StepDef.mk "UserImporter" false],
        t.needsRb = true ∧ false = false ∧ t.name = "UserImporter")) :=
  ⟨by decide,
    completed_implies_invoked_or_restored_or_rbless (fun _ => true) false
      [⟨"UserImporter", false⟩] ⟨[], []⟩ "UserImporter" (by decide)⟩

/-! ## Identity/Principal resolver (`indico_migrate/importer.py`, `Importer.convert_principal`)

The resolver takes a legacy principal object, dispatched on its legacy class
name: `Avatar` (direct user reference), `Group` (local group),
`CERNGroup`/`LDAPGroup`/`NiceGroup` (external-directory groups); anything else
falls through and Python returns `None`.  `self.global_ns` holds the mapping
containers built by the user/group migration steps.  Logging calls are
modelled as a returned list of leveled messages; Python truthiness of a
`User` object is `isSome` of the `Option`. -/

inductive LogMsg : Type
  | warning (msg : String)
  | error (msg : String)
deriving DecidableEq, Repr

/-- A migrated user row (destination schema); only the identity matters to
the resolver. -/
structure NewUser : Type where
  uid : Int
deriving DecidableEq, Repr

/-- A migrated local group row, the value stored in `all_groups` by
`UserImporter.migrate_groups` (users_groups.py line 293). -/
structure LocalGroupRec : Type where
  gid : Int
  gname : String
deriving DecidableEq, Repr

/-- A converted principal: a user, `GroupProxy(int(id))` for a local group,
`GroupProxy(id, default_group_provider)` for a multipass group, or an
`EmailPrincipal` (ACL contexts only). -/
inductive Principal : Type
  | user (u : NewUser)
  | localGroup (gid : Int)
  | multipassGroup (gid : String) (provider : String)
  | emailPrincipal (email : String)
deriving DecidableEq, Repr

/-- A legacy principal object: its legacy class name, its id, and the value
of `__dict__['email']` when that key is present. -/
structure LegacyPrincipal : Type where
  className : String
  id : String
  email : Option String
deriving DecidableEq, Repr

/-- The containers of the run-wide `global_ns` namespace consulted by the
resolver (declared in cli.py lines 99-115 and populated by the users/groups
step): legacy avatar id to migrated user, primary/secondary email indexes,
the merged `users_by_email` index, and the all-groups map. -/
structure PGlobalNS : Type where
  avatarMergedUser : List (String × NewUser)
  usersByPrimaryEmail : List (String × NewUser)
  usersBySecondaryEmail : List (String × NewUser)
  usersByEmail : List (String × NewUser)
  allGroups : List (Int × LocalGroupRec)
deriving DecidableEq, Repr

def expandTabs : List Char → List Char
  | [] => []
  | c :: cs => if c = '\t' then ' ' :: ' ' :: ' ' :: ' ' :: expandTabs cs else c :: expandTabs cs

def pyStripChars (cs : List Char) : List Char :=
  ((cs.dropWhile fun c => c.isWhitespace).reverse.dropWhile fun c => c.isWhitespace).reverse

/-- `convert_to_unicode` (util.py lines 111-130) restricted to text input:
hard tabs become four spaces, control characters are dropped, and the result
is stripped of surrounding whitespace.  Implemented over the character list
so that concrete instances evaluate inside the kernel. -/
def convertToUnicode (s : String) : String :=
  String.mk (pyStripChars ((expandTabs s.data).filter
    (fun c => !(c.toNat ≤ 8 ∨ c.toNat = 11 ∨ c.toNat = 12 ∨
      (14 ≤ c.toNat ∧ c.toNat ≤ 31)))))

/-- Python `str.lower()` (ASCII case folding). -/
def pyLower (s : String) : String :=
  String.mk (s.data.map Char.toLower)

def digitsVal (cs : List Char) : Option Nat :=
  if cs ≠ [] ∧ cs.all Char.isDigit then
    some (cs.foldl (fun a c => a * 10 + (c.toNat - 48)) 0)
  else none

/-- Python `int(...)` on a string: parses an optionally signed decimal
integer, tolerating surrounding whitespace; `none` models `ValueError`. -/
def pyInt (s : String) : Option Int :=
  match pyStripChars s.data with
  | '-' :: cs => (digitsVal cs).map (fun n => -(n : Int))
  | '+' :: cs => (digitsVal cs).map (fun n => (n : Int))
  | cs => (digitsVal cs).map (fun n => (n : Int))

def matchedViaMsg (u : NewUser) (p : LegacyPrincipal) (em : String) : String :=
  "Using " ++ toString u.uid ++ " for " ++ p.id ++ " (matched via " ++ em ++ ")"

def missingUserMsg (p : LegacyPrincipal) : String :=
  "User " ++ p.id ++ " does not exist"

/-- `Importer.convert_principal` (importer.py lines 86-103).  The Python
sequence `principal = get(...)`, `if not principal and 'email' in ...`,
`if not principal: print_error`, `return principal` is folded into one match
per branch; migrated `User` objects are always truthy so `not principal`
is exactly `= none`. -/
def convertPrincipal (g : PGlobalNS) (defaultGroupProvider : String)
    (p : LegacyPrincipal) : Except PyError (Option Principal × List LogMsg) :=
  if p.className = "Avatar" then
    match dictGet g.avatarMergedUser p.id with
    | some u => .ok (some (.user u), [])
    | none =>
      match p.email with
      | some e =>
        let em := pyLower (convertToUnicode e)
        match dictGet g.usersByPrimaryEmail em with
        | some u => .ok (some (.user u), [.warning (matchedViaMsg u p em)])
        | none =>
          match dictGet g.usersBySecondaryEmail em with
          | some u => .ok (some (.user u), [.warning (matchedViaMsg u p em)])
          | none => .ok (none, [.error (missingUserMsg p)])
      | none => .ok (none, [.error (missingUserMsg p)])
  else if p.className = "Group" then
    match pyInt p.id with
    | none => .error (.valueError p.id)
    | some n =>
      if (dictGet g.allGroups n).isSome then .ok (some (.localGroup n), [])
      else .error .assertionError
  else if p.className = "CERNGroup" ∨ p.className = "LDAPGroup" ∨ p.className = "NiceGroup" then
    .ok (some (.multipassGroup p.id defaultGroupProvider), [])
  else
    .ok (none, [])

/-- Claim C5: for a legacy principal of the local-group kind (`Group`),
`convert_principal` asserts that the integer id is present in the global
`all_groups` mapping before returning a group proxy; if group migration has
not populated that mapping with the id, the call raises `AssertionError`
rather than returning nothing. -/
theorem group_reference_asserts_membership (g : PGlobalNS) (dp : String)
    (p : LegacyPrincipal) (n : Int)
    (hcls : p.className = "Group") (hid : pyInt p.id = some n) :
    (dictGet g.allGroups n = none →
      convertPrincipal g dp p = .error .assertionError) ∧
    (∀ grp, dictGet g.allGroups n = some grp →
      convertPrincipal g dp p = .ok (some (.localGroup n), [])) := by
  constructor
  · intro hmiss
    simp [convertPrincipal, hcls, hid, hmiss]
  · intro grp hhit
    simp [convertPrincipal, hcls, hid, hhit]

/-- Witness for C5, both directions: group id 7 unmigrated raises the
assertion; group id 5 migrated yields `GroupProxy(5)`. -/
theorem group_reference_asserts_membership_witness :
    ((LegacyPrincipal.mk "Group" "7" none).className = "Group" ∧
      pyInt "7" = some 7 ∧
      dictGet ([(5, LocalGroupRec.mk 5 "admins")] : List (Int × LocalGroupRec)) 7 = none ∧
      pyInt "5" = some 5) ∧
    convertPrincipal ⟨[], [], [], [], [(5, ⟨5, "admins"⟩)]⟩ "ldap"
      ⟨"Group", "7", none⟩ = .error .assertionError ∧
    convertPrincipal ⟨[], [], [], [], [(5, ⟨5, "admins"⟩)]⟩ "ldap"
      ⟨"Group", "5", none⟩ = .ok (some (.localGroup 5), []) :=
  ⟨⟨rfl, by decide, by decide, by decide⟩,
    (group_reference_asserts_membership ⟨[], [], [], [], [(5, ⟨5, "admins"⟩)]⟩ "ldap"
      ⟨"Group", "7", none⟩ 7 rfl (by decide)).1 (by decide),
    (group_reference_asserts_membership ⟨[], [], [], [], [(5, ⟨5, "admins"⟩)]⟩ "ldap"
      ⟨"Group", "5", none⟩ 5 rfl (by decide)).2 ⟨5, "admins"⟩ (by decide)⟩

/-- Claim C6: a direct legacy user reference (class `Avatar`) is resolved in
exactly this order: (a) the legacy-id map `avatar_merged_user`; (b) on a miss,
if the legacy object records an email, the lowercased email is looked up first
in the primary-email index and then in the secondary-email index; (c) if still
unresolved, the missing user is reported via an error log and nothing is
returned, without raising. -/
theorem avatar_resolution_order (g : PGlobalNS) (dp : String) (p : LegacyPrincipal)
    (hcls : p.className = "Avatar") :
    (∀ u, dictGet g.avatarMergedUser p.id = some u →
      convertPrincipal g dp p = .ok (some (.user u), [])) ∧
    (dictGet g.avatarMergedUser p.id = none →
      (∀ e, p.email = some e →
        (∀ u, dictGet g.usersByPrimaryEmail (pyLower (convertToUnicode e)) = some u →
          convertPrincipal g dp p =
            .ok (some (.user u), [.warning (matchedViaMsg u p (pyLower (convertToUnicode e)))])) ∧
        (dictGet g.usersByPrimaryEmail (pyLower (convertToUnicode e)) = none →
          (∀ u, dictGet g.usersBySecondaryEmail (pyLower (convertToUnicode e)) = some u →
            convertPrincipal g dp p =
              .ok (some (.user u), [.warning (matchedViaMsg u p (pyLower (convertToUnicode e)))])) ∧
          (dictGet g.usersBySecondaryEmail (pyLower (convertToUnicode e)) = none →
            convertPrincipal g dp p = .ok (none, [.error (missingUserMsg p)])))) ∧
      (p.email = none →
        convertPrincipal g dp p = .ok (none, [.error (missingUserMsg p)]))) := by
  refine ⟨fun u hu => ?_, fun hmiss => ⟨fun e he => ⟨fun u hu => ?_, fun hp => ⟨fun u hu => ?_, fun hs => ?_⟩⟩, fun he => ?_⟩⟩
  · simp [convertPrincipal, hcls, hu]
  · simp [convertPrincipal, hcls, hmiss, he, hu]
  · simp [convertPrincipal, hcls, hmiss, he, hp, hu]
  · simp [convertPrincipal, hcls, hmiss, he, hp, hs]
  · simp [convertPrincipal, hcls, hmiss, he]

/-- Witness for C6 exercising the email fallback: avatar id 42 is not in the
legacy-id map, its recorded email ` Bob@CERN.CH ` normalizes to
`bob@cern.ch`, misses the primary index and hits the secondary index; the
resolver returns that user with a warning log. -/
theorem avatar_resolution_order_witness :
    ((LegacyPrincipal.mk "Avatar" "42" (some " Bob@CERN.CH ")).className = "Avatar" ∧
      dictGet ([] : List (String × NewUser)) "42" = none ∧
      (LegacyPrincipal.mk "Avatar" "42" (some " Bob@CERN.CH ")).email = some " Bob@CERN.CH " ∧
      dictGet ([("alice@cern.ch", NewUser.mk 1)]) (pyLower (convertToUnicode " Bob@CERN.CH ")) = none ∧
      dictGet ([("bob@cern.ch", NewUser.mk 2)]) (pyLower (convertToUnicode " Bob@CERN.CH ")) = some (NewUser.mk 2)) ∧
    convertPrincipal ⟨[], [("alice@cern.ch", ⟨1⟩)], [("bob@cern.ch", ⟨2⟩)], [], []⟩ "ldap"
        ⟨"Avatar", "42", some " Bob@CERN.CH "⟩ =
      .ok (some (.user ⟨2⟩),
        [.warning (matchedViaMsg ⟨2⟩ ⟨"Avatar", "42", some " Bob@CERN.CH "⟩
          (pyLower (convertToUnicode " Bob@CERN.CH ")))]) :=
  ⟨⟨rfl, by decide, rfl, by decide, by decide⟩,
    ((((avatar_resolution_order ⟨[], [("alice@cern.ch", ⟨1⟩)], [("bob@cern.ch", ⟨2⟩)], [], []⟩
        "ldap" ⟨"Avatar", "42", some " Bob@CERN.CH "⟩ rfl).2 (by decide)).1
        " Bob@CERN.CH " rfl).2 (by decide)).1 ⟨2⟩ (by decide)⟩

/-! ## ACL principal processing (`indico_migrate/steps/events/acls.py`,
`EventACLImporter.process_principal`)

An ACL subject is either a bare email string or a legacy principal object.
The email branch consults the merged `users_by_email` index and falls back to
a transient `EmailPrincipal`; the object branch delegates to
`convert_principal`.  An unresolved principal produces a warning and leaves
the ACL mapping untouched.  The verbosity-gated `print_log` success line is
not modelled. -/

inductive AclSubject : Type
  | email (s : String)
  | obj (p : LegacyPrincipal)
deriving DecidableEq, Repr

structure EventPrincipalEntry : Type where
  eventId : Int
  fullAccess : Bool
  readAccess : Bool
  roles : List String
deriving DecidableEq, Repr

def insertSortedDedup (x : String) : List String → List String
  | [] => [x]
  | y :: ys => if x < y then x :: y :: ys else if x = y then y :: ys else y :: insertSortedDedup x ys

/-- `sorted(set(a) | set(b))` on lists of role names. -/
def sortedUnion (a b : List String) : List String :=
  (a ++ b).foldl (fun acc x => insertSortedDedup x acc) []

def aclMissingMsg (name : String) (p : LegacyPrincipal) : String :=
  name ++ " does not exist: " ++ p.className ++ " (" ++ p.id ++ ")"

def processPrincipal (g : PGlobalNS) (defaultGroupProvider : String) (eventId : Int)
    (principals : List (Principal × EventPrincipalEntry)) (legacy : AclSubject)
    (name : String) (fullAccess : Bool) (roles : List String) (readAccess : Bool) :
    Except PyError (List (Principal × EventPrincipalEntry) × Option Principal × List LogMsg) :=
  let resolved : Except PyError (Option Principal × List LogMsg) :=
    match legacy with
    | .email s =>
      match dictGet g.usersByEmail s with
      | some u => .ok (some (.user u), [])
      | none => .ok (some (.emailPrincipal s), [])
    | .obj p => convertPrincipal g defaultGroupProvider p
  match resolved with
  | .error e => .error e
  | .ok (none, logs) =>
    .ok (principals, none,
      logs ++ [.warning (aclMissingMsg name (match legacy with
        | .obj p => p
        | .email s => ⟨"str", s, none⟩))])
  | .ok (some pr, logs) =>
    let entry0 :=
      match dictGet principals pr with
      | some entry => entry
      | none => EventPrincipalEntry.mk eventId false false []
    let entry1 := if fullAccess then { entry0 with fullAccess := true } else entry0
    let entry2 := if readAccess then { entry1 with readAccess := true } else entry1
    let entry3 := if roles.isEmpty then entry2 else { entry2 with roles := sortedUnion entry2.roles roles }
    .ok (dictSet principals pr entry3, some pr, logs)

/-- Claim C10: a legacy principal whose class is none of the recognized kinds
(`Avatar`, `Group`, `CERNGroup`, `LDAPGroup`, `NiceGroup`) makes
`convert_principal` return nothing, without raising and without logging; ACL
conversion then filters it out, leaving the ACL mapping unchanged (its own
warning aside). -/
theorem unknown_principal_silently_none (g : PGlobalNS) (dp : String)
    (p : LegacyPrincipal) (eventId : Int)
    (principals : List (Principal × EventPrincipalEntry)) (name : String)
    (fullAccess : Bool) (roles : List String) (readAccess : Bool)
    (hcls : p.className ∉ ["Avatar", "Group", "CERNGroup", "LDAPGroup", "NiceGroup"]) :
    convertPrincipal g dp p = .ok (none, []) ∧
    processPrincipal g dp eventId principals (.obj p) name fullAccess roles readAccess =
      .ok (principals, none, [.warning (aclMissingMsg name p)]) := by
  simp only [List.mem_cons, List.not_mem_nil, or_false, not_or] at hcls
  obtain ⟨h1, h2, h3, h4, h5⟩ := hcls
  have hconv : convertPrincipal g dp p = .ok (none, []) := by
    simp [convertPrincipal, h1, h2, h3, h4, h5]
  exact ⟨hconv, by simp [processPrincipal, hconv]⟩

/-- Witness for C10 with the legacy class `LocalGroupWrapper`, which the
resolver does not recognize. -/
theorem unknown_principal_silently_none_witness :
    ((LegacyPrincipal.mk "LocalGroupWrapper" "9" none).className ∉
      ["Avatar", "Group", "CERNGroup", "LDAPGroup", "NiceGroup"]) ∧
    convertPrincipal ⟨[], [], [], [], []⟩ "ldap" ⟨"LocalGroupWrapper", "9", none⟩ =
      .ok (none, []) ∧
    processPrincipal ⟨[], [], [], [], []⟩ "ldap" 3 [] (.obj ⟨"LocalGroupWrapper", "9", none⟩)
        "manager" true ["submit"] false =
      .ok ([], none, [.warning (aclMissingMsg "manager" ⟨"LocalGroupWrapper", "9", none⟩)]) :=
  ⟨by decide,
    (unknown_principal_silently_none ⟨[], [], [], [], []⟩ "ldap"
      ⟨"LocalGroupWrapper", "9", none⟩ 3 [] "manager" true ["submit"] false (by decide)).1,
    (unknown_principal_silently_none ⟨[], [], [], [], []⟩ "ldap"
      ⟨"LocalGroupWrapper", "9", none⟩ 3 [] "manager" true ["submit"] false (by decide)).2⟩

/-! ## User email-collision fix-up (`indico_migrate/steps/users_groups.py`,
`UserImporter._fix_collisions`)

`_fix_collisions(user, avatar)` runs right after `_user_from_avatar` built the
new user row.  The Python objects live in a heap keyed by user id; the two
email indexes (`users_by_primary_email`, `users_by_secondary_email`) map an
email to the id of the user object they reference.  `is_deleted` is saved at
entry and the later blocks use that saved flag.  The function is split here
into its four textual blocks, sequenced by `fixCollisions`; Python
`set.remove` on the secondary-email set is modelled with `List.erase` (the
element is present whenever the code reaches the removal). -/

structure MUser : Type where
  uid : Int
  email : String
  secondaryEmails : List String
  identities : List String
  isDeleted : Bool
  mergedIntoId : Option Int
deriving DecidableEq, Repr

structure UsersNS : Type where
  heap : List (Int × MUser)
  byPrimary : List (String × Int)
  bySecondary : List (String × Int)
deriving DecidableEq, Repr

def markDeleted (s : UsersNS) (uid : Int) : UsersNS :=
  match dictGet s.heap uid with
  | none => s
  | some u => { s with heap := dictSet s.heap uid { u with isDeleted := true } }

def removeSecondaryEmail (s : UsersNS) (uid : Int) (e : String) : UsersNS :=
  match dictGet s.heap uid with
  | none => s
  | some u => { s with heap := dictSet s.heap uid { u with secondaryEmails := u.secondaryEmails.erase e } }

/-- Block 1: "Mark both users as deleted if there's a primary email
collision" — on a collision with a non-deleted incoming user, delete the one
without identities when exactly one of them has identities
(`bool(avatar.identities) ^ bool(coll.identities)`), otherwise delete both. -/
def fixPrimaryCollision (avatarHasIdentities : Bool) (uid : Int) (user : MUser)
    (s : UsersNS) : UsersNS :=
  match dictGet s.byPrimary user.email with
  | none => s
  | some collId =>
    if user.isDeleted then s
    else
      let collHasIdentities :=
        match dictGet s.heap collId with
        | some c => !c.identities.isEmpty
        | none => false
      let toDelete :=
        if avatarHasIdentities.xor collHasIdentities then
          (if avatarHasIdentities then [collId] else [uid])
        else [uid, collId]
      toDelete.foldl markDeleted s

/-- Block 2: a not-already-deleted user is registered in the primary index. -/
def registerPrimary (uid : Int) (user : MUser) (s : UsersNS) : UsersNS :=
  if user.isDeleted then s
  else { s with byPrimary := dictSet s.byPrimary user.email uid }

/-- Block 3: remove the incoming primary email from another user's secondary
email list (unless the incoming user was merged into that user). -/
def fixSecondaryPrimaryOverlap (user : MUser) (s : UsersNS) : UsersNS :=
  match dictGet s.bySecondary user.email with
  | none => s
  | some collId =>
    if user.mergedIntoId ≠ some collId then
      let t := removeSecondaryEmail s collId user.email
      { t with bySecondary := dictDel t.bySecondary user.email }
    else s

/-- Block 4: for each of the incoming user's secondary emails (snapshot),
drop those colliding with a primary or secondary email of another user, and
register the surviving ones in the secondary index when the incoming user was
not already deleted. -/
def secondaryEmailLoop (uid : Int) (isDeleted : Bool) :
    UsersNS → List String → UsersNS
  | s, [] => s
  | s, e :: rest =>
    let s1 :=
      match dictGet s.byPrimary e with
      | some _ => removeSecondaryEmail s uid e
      | none => s
    let s2 :=
      match dictGet s1.bySecondary e with
      | some collId =>
        let t := removeSecondaryEmail s1 uid e
        { t with bySecondary := dictSet t.bySecondary e collId }
      | none => s1
    let s3 :=
      if (!isDeleted && (match dictGet s2.heap uid with
          | some u => u.secondaryEmails.contains e
          | none => false)) = true then
        { s2 with bySecondary := dictSet s2.bySecondary e uid }
      else s2
    secondaryEmailLoop uid isDeleted s3 rest

def fixCollisions (avatarHasIdentities : Bool) (uid : Int) (s : UsersNS) : UsersNS :=
  match dictGet s.heap uid with
  | none => s
  | some user =>
    let s1 := fixPrimaryCollision avatarHasIdentities uid user s
    let s2 := registerPrimary uid user s1
    let s3 := fixSecondaryPrimaryOverlap user s2
    let snapshot :=
      match dictGet s3.heap uid with
      | some u => u.secondaryEmails
      | none => []
    secondaryEmailLoop uid user.isDeleted s3 snapshot

def heapDeleted (s : UsersNS) (k : Int) : Option Bool :=
  (dictGet s.heap k).map MUser.isDeleted

theorem heapDeleted_removeSecondaryEmail (s : UsersNS) (uid : Int) (e : String) (k : Int) :
    heapDeleted (removeSecondaryEmail s uid e) k = heapDeleted s k := by
  unfold removeSecondaryEmail
  cases hu : dictGet s.heap uid with
  | none => rfl
  | some u =>
    by_cases hk : uid = k
    · subst hk
      simp [heapDeleted, dictGet_dictSet_self, hu]
    · simp [heapDeleted, dictGet_dictSet_ne _ _ _ _ hk]

theorem heapDeleted_secondaryEmailLoop (uid : Int) (isDeleted : Bool)
    (s : UsersNS) (es : List String) (k : Int) :
    heapDeleted (secondaryEmailLoop uid isDeleted s es) k = heapDeleted s k := by
  induction es generalizing s with
  | nil => rfl
  | cons e rest ih =>
    have h1 : ∀ t : UsersNS, heapDeleted
        (match dictGet t.byPrimary e with
          | some _ => removeSecondaryEmail t uid e
          | none => t) k = heapDeleted t k := by
      intro t
      cases dictGet t.byPrimary e with
      | none => rfl
      | some _ => exact heapDeleted_removeSecondaryEmail t uid e k
    have h2 : ∀ t : UsersNS, heapDeleted
        (match dictGet t.bySecondary e with
          | some collId =>
            let t2 := removeSecondaryEmail t uid e
            { t2 with bySecondary := dictSet t2.bySecondary e collId }
          | none => t) k = heapDeleted t k := by
      intro t
      cases dictGet t.bySecondary e with
      | none => rfl
      | some collId => simpa [heapDeleted] using heapDeleted_removeSecondaryEmail t uid e k
    simp only [secondaryEmailLoop]
    rw [ih]
    split
    · simp only [heapDeleted]
      rw [show ∀ t : UsersNS, ({ t with bySecondary := dictSet t.bySecondary e uid } : UsersNS).heap = t.heap from fun t => rfl]
      exact (h2 _).trans (h1 _)
    · exact (h2 _).trans (h1 _)

theorem heapDeleted_fixSecondaryPrimaryOverlap (user : MUser) (s : UsersNS) (k : Int) :
    heapDeleted (fixSecondaryPrimaryOverlap user s) k = heapDeleted s k := by
  unfold fixSecondaryPrimaryOverlap
  cases dictGet s.bySecondary user.email with
  | none => rfl
  | some collId =>
    by_cases hm : user.mergedIntoId ≠ some collId
    · simpa [hm, heapDeleted] using heapDeleted_removeSecondaryEmail s collId user.email k
    · simp [hm]

theorem heapDeleted_registerPrimary (uid : Int) (user : MUser) (s : UsersNS) (k : Int) :
    heapDeleted (registerPrimary uid user s) k = heapDeleted s k := by
  unfold registerPrimary
  split <;> rfl

theorem heapDeleted_fixPrimaryCollision (av : Bool) (uid collId : Int)
    (user coll : MUser) (s : UsersNS)
    (huser : dictGet s.heap uid = some user)
    (hidx : dictGet s.byPrimary user.email = some collId)
    (hcoll : dictGet s.heap collId = some coll)
    (hne : collId ≠ uid)
    (hud : user.isDeleted = false)
    (hcd : coll.isDeleted = false) :
    heapDeleted (fixPrimaryCollision av uid user s) uid =
      some (if av.xor (!coll.identities.isEmpty) then !av else true) ∧
    heapDeleted (fixPrimaryCollision av uid user s) collId =
      some (if av.xor (!coll.identities.isEmpty) then av else true) := by
  have hne2 : uid ≠ collId := Ne.symm hne
  cases av <;> cases hci : coll.identities.isEmpty <;>
    refine ⟨?_, ?_⟩ <;>
      simp [fixPrimaryCollision, hidx, hud, hcoll, hci, markDeleted, heapDeleted, huser,
        dictGet_dictSet_self, dictGet_dictSet_ne _ _ _ _ hne, dictGet_dictSet_ne _ _ _ _ hne2,
        hcd]

/-- Counterexample to claim C7 as stated: two colliding users who BOTH have
login identities.  The claim predicts exactly one of them is marked deleted
(with the both-deleted outcome reserved for the case where neither has
identities), but `_fix_collisions` takes the non-xor branch
(`to_delete = {user, coll}`) and marks both deleted.  Here user 2 (the
incoming avatar, whose `avatar.identities` is non-empty) collides on primary
email `x@y` with already-migrated user 1 whose identity list is
`["ident"]`. -/
theorem fix_collisions_counterexample :
    ¬ ((heapDeleted (fixCollisions true 2
          ⟨[(1, ⟨1, "x@y", [], ["ident"], false, none⟩),
            (2, ⟨2, "x@y", [], [], false, none⟩)],
           [("x@y", 1)], []⟩) 2 = some true ∧
        heapDeleted (fixCollisions true 2
          ⟨[(1, ⟨1, "x@y", [], ["ident"], false, none⟩),
            (2, ⟨2, "x@y", [], [], false, none⟩)],
           [("x@y", 1)], []⟩) 1 = some false) ∨
       (heapDeleted (fixCollisions true 2
          ⟨[(1, ⟨1, "x@y", [], ["ident"], false, none⟩),
            (2, ⟨2, "x@y", [], [], false, none⟩)],
           [("x@y", 1)], []⟩) 2 = some false ∧
        heapDeleted (fixCollisions true 2
          ⟨[(1, ⟨1, "x@y", [], ["ident"], false, none⟩),
            (2, ⟨2, "x@y", [], [], false, none⟩)],
           [("x@y", 1)], []⟩) 1 = some true) ∨
       ((!true && (["ident"] : List String).isEmpty) = true)) := by
  decide

/-- Claim C7, amended: on a primary-email collision between a non-deleted
incoming user and a non-deleted already-indexed user, the fix-up marks
exactly one of them deleted — keeping the one that has login identities —
when exactly one of the two has login identities, and marks BOTH deleted
when neither or both have login identities.  The outcome is a deterministic
function of the two users and the processing order (`fixCollisions` is a
pure function of them). -/
theorem fix_collisions_amended (av : Bool) (uid collId : Int)
    (user coll : MUser) (s : UsersNS)
    (huser : dictGet s.heap uid = some user)
    (hidx : dictGet s.byPrimary user.email = some collId)
    (hcoll : dictGet s.heap collId = some coll)
    (hne : collId ≠ uid)
    (hud : user.isDeleted = false)
    (hcd : coll.isDeleted = false) :
    heapDeleted (fixCollisions av uid s) uid =
      some (if av.xor (!coll.identities.isEmpty) then !av else true) ∧
    heapDeleted (fixCollisions av uid s) collId =
      some (if av.xor (!coll.identities.isEmpty) then av else true) := by
  have hp := heapDeleted_fixPrimaryCollision av uid collId user coll s huser hidx hcoll hne hud hcd
  simp only [fixCollisions, huser]
  constructor
  · rw [heapDeleted_secondaryEmailLoop, heapDeleted_fixSecondaryPrimaryOverlap,
      heapDeleted_registerPrimary]
    exact hp.1
  · rw [heapDeleted_secondaryEmailLoop, heapDeleted_fixSecondaryPrimaryOverlap,
      heapDeleted_registerPrimary]
    exact hp.2

/-- Witness for the amended C7: the avatar has identities, the colliding user
does not, so exactly the colliding user is marked deleted and the incoming
user survives. -/
theorem fix_collisions_amended_witness :
    (dictGet (⟨[(1, ⟨1, "x@y", [], [], false, none⟩),
          (2, ⟨2, "x@y", [], [], false, none⟩)],
         [("x@y", 1)], []⟩ : UsersNS).heap 2 = some ⟨2, "x@y", [], [], false, none⟩ ∧
      dictGet (⟨[(1, ⟨1, "x@y", [], [], false, none⟩),
          (2, ⟨2, "x@y", [], [], false, none⟩)],
         [("x@y", 1)], []⟩ : UsersNS).byPrimary "x@y" = some 1 ∧
      (1 : Int) ≠ 2) ∧
    heapDeleted (fixCollisions true 2
        ⟨[(1, ⟨1, "x@y", [], [], false, none⟩),
          (2, ⟨2, "x@y", [], [], false, none⟩)],
         [("x@y", 1)], []⟩) 2 =
      some (if Bool.xor true (!(([] : List String).isEmpty)) then !true else true) ∧
    heapDeleted (fixCollisions true 2
        ⟨[(1, ⟨1, "x@y", [], [], false, none⟩),
          (2, ⟨2, "x@y", [], [], false, none⟩)],
         [("x@y", 1)], []⟩) 1 =
      some (if Bool.xor true (!(([] : List String).isEmpty)) then true else true) :=
  ⟨⟨by decide, by decide, by decide⟩,
    (fix_collisions_amended true 2 1 ⟨2, "x@y", [], [], false, none⟩
      ⟨1, "x@y", [], [], false, none⟩
      ⟨[(1, ⟨1, "x@y", [], [], false, none⟩), (2, ⟨2, "x@y", [], [], false, none⟩)],
       [("x@y", 1)], []⟩
      (by decide) (by decide) (by decide) (by decide) (by decide) (by decide)).1,
    (fix_collisions_amended true 2 1 ⟨2, "x@y", [], [], false, none⟩
      ⟨1, "x@y", [], [], false, none⟩
      ⟨[(1, ⟨1, "x@y", [], [], false, none⟩), (2, ⟨2, "x@y", [], [], false, none⟩)],
       [("x@y", 1)], []⟩
      (by decide) (by decide) (by decide) (by decide) (by decide) (by decide)).2⟩

/-! ## Event creation and the Lost & Found fallback
(`indico_migrate/steps/events/importer.py`, `_EventContextBase.create_event`
and `lostandfound_category`)

`create_event` resolves the parent category through
`global_ns.legacy_category_ids[conf._Conference__owners[0].id]`; an
`IndexError` (no owners) or `KeyError` (unknown id) is caught, and the event
is either routed to the `lostandfound_category` property (when
`migrate_broken_events` is set) or skipped by raising `SkipEvent`, which the
events loop catches with `continue`.  The `lostandfound_category` property
reads `self.importer.global_ns.lostandfound_category` first; on a
`SharedNamespace` that attribute read falls back to
`SharedNamespace.__getattr__`, i.e. `self._stores['lostandfound_category']`,
and `lostandfound_category` is NOT among the store keys declared for
`global_ns` in cli.py (lines 99-115, copied below), so the read raises
`KeyError` — which `except SkipEvent` does not catch. -/

structure Category : Type where
  cid : Int
  title : String
deriving DecidableEq, Repr

structure EventRec : Type where
  eid : Int
  title : String
  category : Category
deriving DecidableEq, Repr

/-- A legacy conference object: its id, the ids of its
`_Conference__owners`, and its title. -/
structure Conf : Type where
  id : String
  ownerIds : List String
  title : String
deriving DecidableEq, Repr

/-- The state touched by event creation: the `legacy_category_ids` store of
`global_ns`, the `lostandfound_category` instance attribute that the property
setter would create (plain setattr, not a store), and a count of how many
fallback categories were constructed. -/
structure EvGlobalNS : Type where
  legacyCategoryIds : List (String × Category)
  lostandfoundAttr : Option Category
  lafCreateCount : Nat
deriving DecidableEq, Repr

/-- The store keys declared for `global_ns` in cli.py lines 99-115. -/
def globalNsStoreKeys : List String :=
  ["user_favorite_categories", "room_mapping", "venue_mapping", "legacy_event_ids",
   "legacy_category_ids", "wf_registry", "used_short_urls", "legacy_survey_mapping",
   "ip_domains", "avatar_merged_user", "all_groups", "users_by_primary_email",
   "users_by_secondary_email", "users_by_email", "reference_types"]

def lostAndFoundCategoryVal : Category :=
  { cid := 0, title := "Lost & Found" }

/-- The `lostandfound_category` property (importer.py lines 92-103).  When the
instance attribute exists (a previous creation set it with plain setattr),
normal attribute lookup returns the cached category, which is truthy.
Otherwise the read goes through `SharedNamespace.__getattr__`, which indexes
`_stores`; since the key is not declared, this raises
`KeyError('lostandfound_category')`.  (Had the key been declared, the empty
falsy store would have sent control to the creation branch, built the
category once and cached it.) -/
def lostandfoundCategory (g : EvGlobalNS) : Except PyError (Category × EvGlobalNS) :=
  match g.lostandfoundAttr with
  | some c => .ok (c, g)
  | none =>
    if globalNsStoreKeys.contains "lostandfound_category" then
      .ok (lostAndFoundCategoryVal,
        { g with lostandfoundAttr := some lostAndFoundCategoryVal,
                 lafCreateCount := g.lafCreateCount + 1 })
    else
      .error (.keyError "lostandfound_category")

/-- `is_legacy_id` from the destination code base: a string id is legacy iff
it is not a plain digit string. -/
def isLegacyId (s : String) : Bool :=
  !(s.length ≠ 0 && s.data.all Char.isDigit)

def resolveParentCategory (g : EvGlobalNS) (conf : Conf) : Option Category :=
  match conf.ownerIds with
  | [] => none
  | oid :: _ => dictGet g.legacyCategoryIds oid

/-- `_EventContextBase.create_event` (importer.py lines 105-133) restricted to
the id/category/title logic; the datetime fields of the `Event` constructor
are not modelled.  Returns the updated legacy-event-id counter (bumped by
`gen_event_id` before the category lookup, so also on a skip) and either the
created event or the raised exception. -/
def createEvent (migrateBrokenEvents : Bool) (counter : Nat) (conf : Conf)
    (g : EvGlobalNS) : Nat × Except PyError (EventRec × EvGlobalNS) :=
  let idAndCounter :=
    if isLegacyId conf.id then ((counter + 1 : Int), counter + 1)
    else ((pyInt conf.id).getD 0, counter)
  let eventId := idAndCounter.1
  let counter2 := idAndCounter.2
  match resolveParentCategory g conf with
  | some cat =>
    let t := convertToUnicode conf.title
    (counter2, .ok (⟨eventId, if t = "" then "(no title)" else t, cat⟩, g))
  | none =>
    -- print_error('Event has no category!')
    if migrateBrokenEvents then
      match lostandfoundCategory g with
      | .error e => (counter2, .error e)
      | .ok (cat, g2) =>
        let t := convertToUnicode conf.title
        (counter2, .ok (⟨eventId, if t = "" then "(no title)" else t, cat⟩, g2))
    else
      (counter2, .error .skipEvent)

/-- The per-event loop of `EventImporter.migrate_event_data` (importer.py
lines 200-210), restricted to event creation: `except SkipEvent: continue`;
any other exception propagates and aborts the events step (returned as the
final component).  The per-event sub-importers do not touch the state
modelled here. -/
def processEvents (migrateBrokenEvents : Bool) :
    EvGlobalNS → Nat → List Conf → EvGlobalNS × Nat × List EventRec × Option PyError
  | g, ctr, [] => (g, ctr, [], none)
  | g, ctr, conf :: rest =>
    let r := createEvent migrateBrokenEvents ctr conf g
    match r.2 with
    | .error .skipEvent => processEvents migrateBrokenEvents g r.1 rest
    | .error e => (g, r.1, [], some e)
    | .ok (ev, g2) =>
      let rec2 := processEvents migrateBrokenEvents g2 r.1 rest
      (rec2.1, rec2.2.1, ev :: rec2.2.2.1, rec2.2.2.2)

/-- Claim C8 (evaluated at the failing input): with the flag unset, an event
whose parent category cannot be resolved raises `SkipEvent` and the loop
continues with the next event, creating nothing for the broken one — that
half of the claim matches the code.  But with `migrate_broken_events` set,
instead of creating the event under a Lost & Found fallback category, the
first read of `global_ns.lostandfound_category` raises
`KeyError('lostandfound_category')` (the key is not a declared store of
`global_ns` and no instance attribute exists), which `except SkipEvent` does
not catch — the events step aborts. -/
theorem broken_event_fallback_keyerror :
    (createEvent false 0 ⟨"123", [], "Foo"⟩ ⟨[("5", ⟨5, "Top"⟩)], none, 0⟩ =
        (0, .error .skipEvent) ∧
      processEvents false ⟨[("5", ⟨5, "Top"⟩)], none, 0⟩ 0
          [⟨"123", [], "Foo"⟩, ⟨"124", ["5"], "Bar"⟩] =
        (⟨[("5", ⟨5, "Top"⟩)], none, 0⟩, 0, [⟨124, "Bar", ⟨5, "Top"⟩⟩], none)) ∧
    createEvent true 0 ⟨"123", [], "Foo"⟩ ⟨[("5", ⟨5, "Top"⟩)], none, 0⟩ =
      (0, .error (.keyError "lostandfound_category")) ∧
    processEvents true ⟨[("5", ⟨5, "Top"⟩)], none, 0⟩ 0
        [⟨"123", [], "Foo"⟩, ⟨"124", ["5"], "Bar"⟩] =
      (⟨[("5", ⟨5, "Top"⟩)], none, 0⟩, 0, [], some (.keyError "lostandfound_category")) :=
  ⟨⟨rfl, rfl⟩, rfl, rfl⟩

/-! ## Sequence repair (`indico_migrate/importer.py`, `Importer.fix_sequences`)

`fix_sequences` walks the model registry (sorted by class name; entries
without a `__table__` are skipped and are simply absent from our table list),
applies the optional schema/table filters, and for every table with exactly
one auto-incrementing integer primary-key column executes
`SELECT setval('<schema>.<table>_<col>_seq', max(col) + 1) FROM <table>`.
PostgreSQL's two-argument `setval` sets the sequence `last_value` to the
given value with `is_called = true`, so the next `nextval` returns that value
plus one; on an empty table `max(col)` is NULL and the strict `setval` is a
no-op. -/

structure SaColumn : Type where
  name : String
  autoincrement : Bool
  primaryKey : Bool
  isInteger : Bool
deriving DecidableEq, Repr

structure SaTable : Type where
  schema : String
  tablename : String
  cols : List SaColumn
  colValues : List (String × List Int)
deriving DecidableEq, Repr

structure SeqState : Type where
  lastValue : Int
  isCalled : Bool
deriving DecidableEq, Repr

structure SaDb : Type where
  tables : List SaTable
  sequences : List (String × SeqState)
deriving DecidableEq, Repr

/-- `[col for col in table.c if col.autoincrement and col.primary_key]`. -/
def candidateCols (t : SaTable) : List SaColumn :=
  t.cols.filter (fun c => c.autoincrement && c.primaryKey)

/-- `'{}.{}_{}_seq'.format(table.schema, cls.__tablename__, serial_col.name)`. -/
def sequenceName (t : SaTable) (c : SaColumn) : String :=
  t.schema ++ "." ++ t.tablename ++ "_" ++ c.name ++ "_seq"

def setval (db : SaDb) (nm : String) (v : Int) : SaDb :=
  { db with sequences := dictSet db.sequences nm ⟨v, true⟩ }

def nextvalValue (st : SeqState) : Int :=
  if st.isCalled then st.lastValue + 1 else st.lastValue

def tableSelected (schemaF : Option String) (tablesF : Option (List String))
    (t : SaTable) : Bool :=
  (match schemaF with
    | none => true
    | some sc => t.schema = sc) &&
  (match tablesF with
    | none => true
    | some ts => ts.contains t.tablename)

/-- One iteration of the `fix_sequences` loop for one table. -/
def fixTable (schemaF : Option String) (tablesF : Option (List String))
    (db : SaDb) (t : SaTable) : SaDb :=
  if !(tableSelected schemaF tablesF t) then db
  else
    match candidateCols t with
    | [c] =>
      if c.isInteger then
        match (dictGet t.colValues c.name).getD [] with
        | [] => db
        | v :: vs => setval db (sequenceName t c) (vs.foldl max v + 1)
      else db
    | _ => db

def fixSequences (schemaF : Option String) (tablesF : Option (List String))
    (db : SaDb) : SaDb :=
  db.tables.foldl (fixTable schemaF tablesF) db

/-- The sequence name a table writes to, when its `fix_sequences` iteration
actually performs a `setval`. -/
def appliesSetval (schemaF : Option String) (tablesF : Option (List String))
    (t : SaTable) : Option String :=
  if !(tableSelected schemaF tablesF t) then none
  else
    match candidateCols t with
    | [c] =>
      if c.isInteger then
        match (dictGet t.colValues c.name).getD [] with
        | [] => none
        | _ :: _ => some (sequenceName t c)
      else none
    | _ => none

theorem fixTable_seq_other (schemaF : Option String) (tablesF : Option (List String))
    (db : SaDb) (t : SaTable) (nm : String)
    (h : appliesSetval schemaF tablesF t ≠ some nm) :
    dictGet (fixTable schemaF tablesF db t).sequences nm = dictGet db.sequences nm := by
  by_cases hsel : tableSelected schemaF tablesF t = true
  · cases hcand : candidateCols t with
    | nil => simp [fixTable, hsel, hcand]
    | cons c cs =>
      cases cs with
      | cons c2 cs2 => simp [fixTable, hsel, hcand]
      | nil =>
        by_cases hint : c.isInteger = true
        · cases hvals : (dictGet t.colValues c.name).getD [] with
          | nil => simp [fixTable, hsel, hcand, hint, hvals]
          | cons v vs =>
            have hne : sequenceName t c ≠ nm := by
              intro he
              exact h (by simp [appliesSetval, hsel, hcand, hint, hvals, he])
            simp [fixTable, hsel, hcand, hint, hvals, setval,
              dictGet_dictSet_ne _ _ _ _ hne]
        · simp [fixTable, hsel, hcand, hint]
  · simp [fixTable, hsel]

theorem foldl_fixTable_preserve (schemaF : Option String) (tablesF : Option (List String))
    (ts : List SaTable) (db : SaDb) (nm : String)
    (h : ∀ t ∈ ts, appliesSetval schemaF tablesF t ≠ some nm) :
    dictGet ((ts.foldl (fixTable schemaF tablesF) db)).sequences nm =
      dictGet db.sequences nm := by
  induction ts generalizing db with
  | nil => rfl
  | cons t0 ts2 ih =>
    simp only [List.foldl_cons]
    rw [ih _ (fun t ht => h t (List.mem_cons_of_mem _ ht))]
    exact fixTable_seq_other schemaF tablesF db t0 nm (h t0 (List.mem_cons_self _ _))

theorem fixTable_applies_eq (schemaF : Option String) (tablesF : Option (List String))
    (db : SaDb) (t : SaTable) (c : SaColumn) (v : Int) (vs : List Int)
    (hsel : tableSelected schemaF tablesF t = true)
    (hcand : candidateCols t = [c])
    (hint : c.isInteger = true)
    (hvals : dictGet t.colValues c.name = some (v :: vs)) :
    fixTable schemaF tablesF db t = setval db (sequenceName t c) (vs.foldl max v + 1) ∧
    appliesSetval schemaF tablesF t = some (sequenceName t c) := by
  constructor
  · simp [fixTable, hsel, hcand, hint, hvals]
  · simp [appliesSetval, hsel, hcand, hint, hvals]

theorem foldl_fixTable_applied (schemaF : Option String) (tablesF : Option (List String))
    (ts : List SaTable) (db : SaDb) (t : SaTable) (c : SaColumn) (v : Int) (vs : List Int)
    (hmem : t ∈ ts)
    (hnd : (ts.filterMap (appliesSetval schemaF tablesF)).Nodup)
    (hsel : tableSelected schemaF tablesF t = true)
    (hcand : candidateCols t = [c])
    (hint : c.isInteger = true)
    (hvals : dictGet t.colValues c.name = some (v :: vs)) :
    dictGet ((ts.foldl (fixTable schemaF tablesF) db)).sequences (sequenceName t c) =
      some ⟨vs.foldl max v + 1, true⟩ := by
  induction ts generalizing db with
  | nil => cases hmem
  | cons t0 ts2 ih =>
    rcases List.mem_cons.mp hmem with heq | htl
    · subst heq
      obtain ⟨hfix, happ⟩ := fixTable_applies_eq schemaF tablesF db t c v vs hsel hcand hint hvals
      simp only [List.foldl_cons, hfix]
      have hrest : ∀ t2 ∈ ts2, appliesSetval schemaF tablesF t2 ≠ some (sequenceName t c) := by
        intro t2 ht2 happ2
        rw [List.filterMap_cons, happ] at hnd
        exact (List.nodup_cons.mp hnd).1 (List.mem_filterMap.mpr ⟨t2, ht2, happ2⟩)
      rw [foldl_fixTable_preserve schemaF tablesF ts2 _ _ hrest]
      simpa [setval] using dictGet_dictSet_self db.sequences (sequenceName t c) _
    · have hnd2 : (ts2.filterMap (appliesSetval schemaF tablesF)).Nodup := by
        rw [List.filterMap_cons] at hnd
        cases happ0 : appliesSetval schemaF tablesF t0 with
        | none => simpa [happ0] using hnd
        | some nm0 =>
          rw [happ0] at hnd
          exact (List.nodup_cons.mp hnd).2
      simp only [List.foldl_cons]
      exact ih _ htl hnd2

theorem foldlMax_ge_init (l : List Int) (a : Int) : a ≤ l.foldl max a := by
  induction l generalizing a with
  | nil => exact le_refl a
  | cons x xs ih => exact le_trans (le_max_left a x) (ih (max a x))

theorem foldlMax_ge_mem (l : List Int) (a x : Int) (hx : x ∈ l) : x ≤ l.foldl max a := by
  induction l generalizing a with
  | nil => cases hx
  | cons y ys ih =>
    rcases List.mem_cons.mp hx with heq | htl
    · subst heq
      exact le_trans (le_max_right a x) (foldlMax_ge_init ys (max a x))
    · exact ih (max a y) htl

/-- Claim C9: for every destination table (within the schema/table filter)
that has exactly one auto-incrementing integer primary-key column, after
`fix_sequences` runs the sequence has been set to `max(key) + 1` and the next
value it generates is strictly greater than every primary-key value present
in that table.  The `hnd` hypothesis is the schema invariant that distinct
tables write distinct sequence names. -/
theorem fix_sequences_next_exceeds_max
    (schemaF : Option String) (tablesF : Option (List String)) (db : SaDb)
    (t : SaTable) (c : SaColumn) (v : Int) (vs : List Int)
    (hmem : t ∈ db.tables)
    (hsel : tableSelected schemaF tablesF t = true)
    (hcand : candidateCols t = [c])
    (hint : c.isInteger = true)
    (hvals : dictGet t.colValues c.name = some (v :: vs))
    (hnd : (db.tables.filterMap (appliesSetval schemaF tablesF)).Nodup) :
    dictGet (fixSequences schemaF tablesF db).sequences (sequenceName t c) =
      some ⟨vs.foldl max v + 1, true⟩ ∧
    ∀ x ∈ v :: vs, x < nextvalValue ⟨vs.foldl max v + 1, true⟩ := by
  have hvals2 : dictGet t.colValues c.name = some (v :: vs) := hvals
  constructor
  · exact foldl_fixTable_applied schemaF tablesF db.tables db t c v vs hmem hnd hsel hcand hint hvals2
  · intro x hx
    have hle : x ≤ vs.foldl max v := by
      rcases List.mem_cons.mp hx with heq | htl
      · subst heq
        exact foldlMax_ge_init vs x
      · exact foldlMax_ge_mem vs v x htl
    have : nextvalValue ⟨vs.foldl max v + 1, true⟩ = vs.foldl max v + 2 := by
      simp [nextvalValue]
      ring
    rw [this]
    omega

/-- Witness for C9: the `users.users` table carries migrated ids 3 and 17;
after the fix-up the sequence holds 18 with `is_called`, so the next
generated value is 19 > 17. -/
theorem fix_sequences_next_exceeds_max_witness :
    (SaTable.mk "users" "users" [⟨"id", true, true, true⟩] [("id", [3, 17])] ∈
        [SaTable.mk "users" "users" [⟨"id", true, true, true⟩] [("id", [3, 17])]] ∧
      tableSelected (some "users") (some ["users"])
        (SaTable.mk "users" "users" [⟨"id", true, true, true⟩] [("id", [3, 17])]) = true ∧
      candidateCols (SaTable.mk "users" "users" [⟨"id", true, true, true⟩] [("id", [3, 17])]) =
        [⟨"id", true, true, true⟩]) ∧
    dictGet (fixSequences (some "users") (some ["users"])
        ⟨[⟨"users", "users", [⟨"id", true, true, true⟩], [("id", [3, 17])]⟩],
         [("users.users_id_seq", ⟨1, false⟩)]⟩).sequences
      (sequenceName ⟨"users", "users", [⟨"id", true, true, true⟩], [("id", [3, 17])]⟩
        ⟨"id", true, true, true⟩) =
      some ⟨([17] : List Int).foldl max 3 + 1, true⟩ ∧
    ∀ x ∈ ([3, 17] : List Int), x < nextvalValue ⟨([17] : List Int).foldl max 3 + 1, true⟩ :=
  ⟨⟨by decide, by decide, by decide⟩,
    (fix_sequences_next_exceeds_max (some "users") (some ["users"])
      ⟨[⟨"users", "users", [⟨"id", true, true, true⟩], [("id", [3, 17])]⟩],
       [("users.users_id_seq", ⟨1, false⟩)]⟩
      ⟨"users", "users", [⟨"id", true, true, true⟩], [("id", [3, 17])]⟩
      ⟨"id", true, true, true⟩ 3 [17]
      (by decide) (by decide) (by decide) (by decide) (by decide) (by decide)).1,
    (fix_sequences_next_exceeds_max (some "users") (some ["users"])
      ⟨[⟨"users", "users", [⟨"id", true, true, true⟩], [("id", [3, 17])]⟩],
       [("users.users_id_seq", ⟨1, false⟩)]⟩
      ⟨"users", "users", [⟨"id", true, true, true⟩], [("id", [3, 17])]⟩
      ⟨"id", true, true, true⟩ 3 [17]
      (by decide) (by decide) (by decide) (by decide) (by decide) (by decide)).2⟩
